import Mathlib

/-!
Shallow embedding of `src/idcard/src/id.rs`: the `FromStr` implementation for
`IdentityNumber`, the Chinese second-generation identity-number parser.

Strings are modelled as `List Char` (Rust `&str` is a sequence of Unicode
scalar values stored as UTF-8 bytes).  `str::split_at` works on BYTE indices
and panics when the index is out of bounds or not on a character boundary, so
the embedding keeps track of UTF-8 byte widths and models the panic as a
distinguished outcome.  The collaborators that are not part of `src/`
(the `gb2260::Division` registry and the crate's `utils::{Date, Seq}` parsers)
are modelled from the spec, as marked on their doc comments.
-/

namespace IdCard

/-- UTF-8 byte width of a character (Rust `char::len_utf8`). -/
def utf8Len (c : Char) : Nat :=
  if c.toNat ≤ 0x7F then 1
  else if c.toNat ≤ 0x7FF then 2
  else if c.toNat ≤ 0xFFFF then 3
  else 4

/-- Total UTF-8 byte length of a string (`str::len`). -/
def bytesLen (cs : List Char) : Nat := (cs.map utf8Len).sum

/-- Model of Rust `str::split_at`: split at byte index `n`.  `none` models the
panic raised when `n` is past the end of the string or falls inside a
multi-byte character. -/
def splitAtBytes : List Char → Nat → Option (List Char × List Char)
  | cs, 0 => some ([], cs)
  | [], _ + 1 => none
  | c :: cs, n + 1 =>
    if utf8Len c ≤ n + 1 then
      (splitAtBytes cs (n + 1 - utf8Len c)).map (fun p => (c :: p.1, p.2))
    else none

/-- Rust `char::is_ascii_digit` / the digit test behind `char::to_digit(10)`. -/
def isDigitC (c : Char) : Bool := 48 ≤ c.toNat && c.toNat ≤ 57

/-- Numeric value of an ASCII digit character. -/
def charVal (c : Char) : Nat := c.toNat - 48

/-- Decimal value of a digit string (most significant digit first). -/
def strVal (cs : List Char) : Nat := cs.foldl (fun a c => a * 10 + charVal c) 0

-- Constants of `id.rs`.

def IDNUMBER_LENGTH : Nat := 18

def WEIGHTS : List Nat := [7, 9, 10, 5, 8, 4, 2, 1, 6, 3, 7, 9, 10, 5, 8, 4, 2]

def CHECK_CODE : List Char := ['1', '0', 'X', '9', '8', '7', '6', '5', '4', '3', '2']

def DIV_CODE_LENGTH : Nat := 6

def BIRTHDAY_LENGTH : Nat := 8

def SEQ_LENGTH : Nat := 3

def ID_MODULE : Nat := 11

/-- Modelled from the spec: the external `gb2260` division registry holds the
historical 6-digit GB/T 2260 administrative-division codes.  The embedding
keeps a small concrete registry; every entry is a 6-character ASCII-digit
string, and a division handle is modelled as the code itself
("a lightweight value type (e.g., copyable small identifier)"). -/
def registry : List (List Char) :=
  [['1', '1', '0', '1', '0', '1'], ['5', '1', '0', '1', '0', '8']]

namespace Division

/-- Modelled from the spec: `lookup(code: 6-char string) -> Option<DivisionHandle>`
(`gb2260::Division::get`), returning the handle when the code is registered. -/
def get (code : List Char) : Option (List Char) :=
  if code ∈ registry then some code else none

end Division

/-- A calendar date, the output of the `utils::Date` parser. -/
structure Date where
  year : Nat
  month : Nat
  day : Nat
deriving DecidableEq

/-- Gregorian leap-year rule. -/
def isLeap (y : Nat) : Bool := (y % 4 == 0 && y % 100 != 0) || y % 400 == 0

/-- Number of days in a month. -/
def daysInMonth (y m : Nat) : Nat :=
  if m == 2 then (if isLeap y then 29 else 28)
  else if m == 4 || m == 6 || m == 9 || m == 11 then 30
  else 31

/-- Chronological order of dates. -/
def dateLe (a b : Date) : Bool :=
  a.year < b.year ||
    (a.year == b.year &&
      (a.month < b.month || (a.month == b.month && a.day ≤ b.day)))

/-- Modelled from the spec: `parse_date(s: 8-char digit string) -> Result<Date, _>`
(`utils::Date`'s `FromStr`).  Succeeds only on an 8-character all-digit string
denoting a valid calendar date no earlier than the 1900 historical floor and
no later than the validation-time `now`. -/
def parseDate (now : Date) (cs : List Char) : Option Date :=
  if cs.length = 8 ∧ cs.all isDigitC then
    let y := strVal (cs.take 4)
    let m := strVal ((cs.drop 4).take 2)
    let d := strVal (cs.drop 6)
    if 1900 ≤ y ∧ 1 ≤ m ∧ m ≤ 12 ∧ 1 ≤ d ∧ d ≤ daysInMonth y m ∧
        dateLe ⟨y, m, d⟩ now then
      some ⟨y, m, d⟩
    else none
  else none

/-- Modelled from the spec: `parse_seq(s: 3-char digit string) -> Result<Seq, _>`
(`utils::Seq`'s `FromStr`).  Succeeds only on a 3-character all-digit string,
yielding the ordinal 0–999. -/
def parseSeq (cs : List Char) : Option Nat :=
  if cs.length = 3 ∧ cs.all isDigitC then some (strVal cs) else none

/-- The output record of `id.rs` (checksum digit is not stored). -/
structure IdentityNumber where
  div : List Char
  birth : Date
  seq : Nat
deriving DecidableEq

/-- The error taxonomy `InvalidId` of `id.rs`. -/
inductive InvalidId
  | LengthNotMatch : Nat → InvalidId
  | DivisionNotFound : List Char → InvalidId
  | InvalidBirthday : List Char → InvalidId
  | InvalidSeq : List Char → InvalidId
  | InvalidCheckCode : Char → InvalidId
  | WrongCheckCode : Char → InvalidId
deriving DecidableEq

/-- The places where `from_str` can panic. -/
inductive PanicKind
  | splitBoundary
  | digitUnwrap
  | unreachableChk
deriving DecidableEq

/-- Result of running `from_str`: `Ok`, `Err`, or a panic. -/
inductive ParseOutcome
  | ok : IdentityNumber → ParseOutcome
  | err : InvalidId → ParseOutcome
  | panic : PanicKind → ParseOutcome
deriving DecidableEq

/-- Rust `char::to_digit(10)`. -/
def toDigit10 (c : Char) : Option Nat :=
  if isDigitC c then some (charVal c) else none

/-- The `fold` of the checksum computation in `from_str`, over the zipped
(digit, weight) pairs, in `u8` arithmetic:
`fold(0u8, |acc, (d, w)| (acc + d * w) % ID_MODULE)`. -/
def chkIdxAux : List (Nat × Nat) → Nat → Nat
  | [], acc => acc
  | dw :: rest, acc =>
    chkIdxAux rest (((acc + (dw.1 * dw.2) % 256) % 256) % ID_MODULE)

/-- The checksum index computed by `from_str` over the first 17 characters;
`none` models the panic of `chr.to_digit(10).unwrap()` on a non-digit. -/
def chkIdx (s : List Char) : Option Nat :=
  ((s.take (IDNUMBER_LENGTH - 1)).mapM toDigit10).map
    (fun ds => chkIdxAux (ds.zip WEIGHTS) 0)

/-- The embedding of `<IdentityNumber as FromStr>::from_str`.  `now` is the
validation-time date consumed by the date validator. -/
def from_str (now : Date) (s : List Char) : ParseOutcome :=
  let s_len := s.length
  if s_len ≠ IDNUMBER_LENGTH then .err (.LengthNotMatch s_len)
  else
    match splitAtBytes s DIV_CODE_LENGTH with
    | none => .panic .splitBoundary
    | some (div_code, rest) =>
      match Division.get div_code with
      | none => .err (.DivisionNotFound div_code)
      | some d =>
        match splitAtBytes rest BIRTHDAY_LENGTH with
        | none => .panic .splitBoundary
        | some (birthday, rest2) =>
          match parseDate now birthday with
          | none => .err (.InvalidBirthday birthday)
          | some birth =>
            match splitAtBytes rest2 SEQ_LENGTH with
            | none => .panic .splitBoundary
            | some (seqs, chks) =>
              match parseSeq seqs with
              | none => .err (.InvalidSeq seqs)
              | some sq =>
                match chks.head? with
                | none => .panic .unreachableChk
                | some chr =>
                  if chr ∈ CHECK_CODE then
                    match chkIdx s with
                    | none => .panic .digitUnwrap
                    | some idx =>
                      if chr ≠ CHECK_CODE.getD idx ' ' then
                        .err (.WrongCheckCode chr)
                      else .ok ⟨d, birth, sq⟩
                  else if chr ∉ CHECK_CODE then .err (.InvalidCheckCode chr)
                  else .panic .unreachableChk

/-- A fixed validation-time date used by the concrete witnesses. -/
def now2026 : Date := ⟨2026, 10, 12⟩

/-- The spec's weight table, written from the spec's words:
`[7,9,10,5,8,4,2,1,6,3,7,9,10,5,8,4,2]`. -/
def specWeights : List Nat := [7, 9, 10, 5, 8, 4, 2, 1, 6, 3, 7, 9, 10, 5, 8, 4, 2]

/-- The spec's checksum alphabet, written from the spec's words:
`['1','0','X','9','8','7','6','5','4','3','2']`. -/
def specAlphabet : List Char := ['1', '0', 'X', '9', '8', '7', '6', '5', '4', '3', '2']

/-- The spec's reference checksum index, written from the spec's words:
`sum = Σ(digit[i] * weight[i])`, then `index = sum mod 11`. -/
def specIdx (ds : List Nat) : Nat :=
  (List.zipWith (fun d w => d * w) ds specWeights).sum % 11

end IdCard
namespace IdCard

theorem utf8Len_pos (c : Char) : 1 ≤ utf8Len c := by
  unfold utf8Len
  split
  · omega
  · split
    · omega
    · split <;> omega

theorem utf8Len_of_digit {c : Char} (h : isDigitC c = true) : utf8Len c = 1 := by
  unfold isDigitC at h
  simp only [Bool.and_eq_true, decide_eq_true_eq] at h
  unfold utf8Len
  rw [if_pos (by omega)]

theorem bytesLen_nil : bytesLen [] = 0 := rfl

theorem bytesLen_cons (c : Char) (cs : List Char) :
    bytesLen (c :: cs) = utf8Len c + bytesLen cs := rfl

theorem bytesLen_append (l₁ l₂ : List Char) :
    bytesLen (l₁ ++ l₂) = bytesLen l₁ + bytesLen l₂ := by
  induction l₁ with
  | nil => simp [bytesLen_nil]
  | cons c cs ih => simp [bytesLen_cons, ih]; omega

theorem length_le_bytesLen (l : List Char) : l.length ≤ bytesLen l := by
  induction l with
  | nil => simp [bytesLen_nil]
  | cons c cs ih =>
    rw [bytesLen_cons, List.length_cons]
    have := utf8Len_pos c
    omega

theorem splitAtBytes_ascii :
    ∀ (n : Nat) (l : List Char), n ≤ l.length →
      (∀ c ∈ l.take n, utf8Len c = 1) →
      splitAtBytes l n = some (l.take n, l.drop n) := by
  intro n
  induction n with
  | zero => intro l _ _; simp [splitAtBytes]
  | succ m ih =>
    intro l hlen hasc
    match l with
    | [] => simp at hlen
    | c :: cs =>
      have hc : utf8Len c = 1 := hasc c (by simp)
      have hrec : splitAtBytes cs m = some (cs.take m, cs.drop m) := by
        apply ih
        · simpa using hlen
        · intro x hx
          exact hasc x (by simp [List.take_succ_cons]; right; exact hx)
      simp [splitAtBytes, hc, hrec, List.take_succ_cons, List.drop_succ_cons]

theorem splitAtBytes_eq_some :
    ∀ (l : List Char) (n : Nat) (a b : List Char),
      splitAtBytes l n = some (a, b) → l = a ++ b ∧ bytesLen a = n := by
  intro l
  induction l with
  | nil =>
    intro n a b h
    match n with
    | 0 =>
      simp [splitAtBytes] at h
      obtain ⟨ha, hb⟩ := h
      subst ha; subst hb; simp [bytesLen_nil]
    | _ + 1 => simp [splitAtBytes] at h
  | cons c cs ih =>
    intro n a b h
    match n with
    | 0 =>
      simp [splitAtBytes] at h
      obtain ⟨ha, hb⟩ := h
      subst ha
      simp [← hb, bytesLen_nil]
    | m + 1 =>
      simp only [splitAtBytes] at h
      by_cases hle : utf8Len c ≤ m + 1
      · rw [if_pos hle] at h
        simp only [Option.map_eq_some'] at h
        obtain ⟨p, hp, heq⟩ := h
        obtain ⟨hl, hb⟩ := ih (m + 1 - utf8Len c) p.1 p.2 (by simpa using hp)
        have ha : a = c :: p.1 := by
          have := congrArg Prod.fst heq
          simpa using this.symm
        have hb2 : b = p.2 := by
          have := congrArg Prod.snd heq
          simpa using this.symm
        subst ha; subst hb2
        constructor
        · simp [hl]
        · rw [bytesLen_cons, hb]; omega
      · rw [if_neg hle] at h; simp at h

end IdCard
namespace IdCard

theorem registry_entry :
    ∀ code ∈ registry, code.length = 6 ∧ code.all isDigitC = true := by decide

theorem Division.get_eq_some {code d : List Char} (h : Division.get code = some d) :
    d = code ∧ code ∈ registry := by
  unfold Division.get at h
  by_cases hm : code ∈ registry
  · rw [if_pos hm] at h
    exact ⟨(Option.some_injective _ h).symm, hm⟩
  · rw [if_neg hm] at h; simp at h

theorem parseDate_some {now b : Date} {cs : List Char}
    (h : parseDate now cs = some b) :
    cs.length = 8 ∧ cs.all isDigitC = true := by
  unfold parseDate at h
  by_cases hc : cs.length = 8 ∧ cs.all isDigitC
  · exact ⟨hc.1, hc.2⟩
  · rw [if_neg hc] at h; simp at h

theorem parseSeq_some {q : Nat} {cs : List Char} (h : parseSeq cs = some q) :
    cs.length = 3 ∧ cs.all isDigitC = true := by
  unfold parseSeq at h
  by_cases hc : cs.length = 3 ∧ cs.all isDigitC
  · exact ⟨hc.1, hc.2⟩
  · rw [if_neg hc] at h; simp at h

theorem mapM_toDigit10_of_digits :
    ∀ (l : List Char), (∀ c ∈ l, isDigitC c = true) →
      l.mapM toDigit10 = some (l.map charVal) := by
  intro l
  induction l with
  | nil => intro _; rfl
  | cons c cs ih =>
    intro h
    have hc : toDigit10 c = some (charVal c) := by
      unfold toDigit10
      rw [if_pos (h c (by simp))]
    rw [List.mapM_cons, hc, ih (fun x hx => h x (by simp [hx]))]
    rfl

theorem chkIdxAux_lt {acc : Nat} (l : List (Nat × Nat)) (h : acc < 11) :
    chkIdxAux l acc < 11 := by
  induction l generalizing acc with
  | nil => exact h
  | cons dw rest ih =>
    unfold chkIdxAux ID_MODULE
    exact ih (Nat.mod_lt _ (by omega))

theorem chkIdxAux_eq_sum :
    ∀ (l : List (Nat × Nat)) (acc : Nat),
      (∀ p ∈ l, p.1 * p.2 ≤ 245) → acc < 11 →
      chkIdxAux l acc = (acc + (l.map (fun p => p.1 * p.2)).sum) % 11 := by
  intro l
  induction l with
  | nil =>
    intro acc _ hacc
    simp [chkIdxAux, Nat.mod_eq_of_lt hacc]
  | cons dw rest ih =>
    intro acc hb hacc
    have hdw : dw.1 * dw.2 ≤ 245 := hb dw (by simp)
    have h1 : dw.1 * dw.2 % 256 = dw.1 * dw.2 := Nat.mod_eq_of_lt (by omega)
    have h2 : (acc + dw.1 * dw.2) % 256 = acc + dw.1 * dw.2 :=
      Nat.mod_eq_of_lt (by omega)
    unfold chkIdxAux ID_MODULE
    rw [h1, h2, ih _ (fun p hp => hb p (by simp [hp])) (Nat.mod_lt _ (by omega))]
    rw [List.map_cons, List.sum_cons, Nat.mod_add_mod, Nat.add_assoc]

theorem chkIdx_of_digits {s : List Char}
    (h : ∀ c ∈ s.take 17, isDigitC c = true) :
    chkIdx s = some (chkIdxAux (((s.take 17).map charVal).zip WEIGHTS) 0) := by
  unfold chkIdx IDNUMBER_LENGTH
  rw [show (18 - 1 : Nat) = 17 from rfl, mapM_toDigit10_of_digits _ h]
  rfl

theorem drop_pred_eq_getD {l : List Char} {n : Nat} (h : l.length = n + 1) :
    l.drop n = [l.getD n ' '] := by
  have hn : n < l.length := by omega
  rw [List.drop_eq_getElem_cons hn]
  have : l.drop (n + 1) = [] := List.drop_eq_nil_of_le (by omega)
  rw [this, List.getD_eq_getElem l ' ' hn]

end IdCard
namespace IdCard

theorem take17_decomp (s : List Char) :
    s.take 17 = s.take 6 ++ ((s.drop 6).take 8 ++ (s.drop 14).take 3) := by
  rw [show (17 : Nat) = 6 + 11 from rfl, List.take_add]
  congr 1
  rw [show (11 : Nat) = 8 + 3 from rfl, List.take_add]
  congr 2
  rw [List.drop_drop]

theorem from_str_valid_reduction (now : Date) (s : List Char) (d : List Char)
    (b : Date) (q : Nat)
    (h18 : s.length = 18)
    (hdiv : Division.get (s.take 6) = some d)
    (hbd : parseDate now ((s.drop 6).take 8) = some b)
    (hsq : parseSeq ((s.drop 14).take 3) = some q) :
    ∃ idx, chkIdx s = some idx ∧ idx < 11 ∧
      from_str now s =
        (if s.getD 17 ' ' ∈ CHECK_CODE then
          (if s.getD 17 ' ' ≠ CHECK_CODE.getD idx ' ' then
            ParseOutcome.err (.WrongCheckCode (s.getD 17 ' '))
          else ParseOutcome.ok ⟨d, b, q⟩)
        else ParseOutcome.err (.InvalidCheckCode (s.getD 17 ' '))) := by
  obtain ⟨hd, hreg⟩ := Division.get_eq_some hdiv
  have h6d : ∀ c ∈ s.take 6, isDigitC c = true := by
    have := (registry_entry _ hreg).2
    simpa [List.all_eq_true] using this
  have h8d : ∀ c ∈ (s.drop 6).take 8, isDigitC c = true := by
    have := (parseDate_some hbd).2
    simpa [List.all_eq_true] using this
  have h3d : ∀ c ∈ (s.drop 14).take 3, isDigitC c = true := by
    have := (parseSeq_some hsq).2
    simpa [List.all_eq_true] using this
  have h17d : ∀ c ∈ s.take 17, isDigitC c = true := by
    intro c hc
    rw [take17_decomp, List.mem_append, List.mem_append] at hc
    rcases hc with hc | hc | hc
    · exact h6d c hc
    · exact h8d c hc
    · exact h3d c hc
  have split1 : splitAtBytes s 6 = some (s.take 6, s.drop 6) :=
    splitAtBytes_ascii 6 s (by omega)
      (fun c hc => utf8Len_of_digit (h6d c hc))
  have split2 : splitAtBytes (s.drop 6) 8 =
      some ((s.drop 6).take 8, (s.drop 6).drop 8) :=
    splitAtBytes_ascii 8 (s.drop 6) (by simp [h18])
      (fun c hc => utf8Len_of_digit (h8d c hc))
  have hd6 : (s.drop 6).drop 8 = s.drop 14 := by rw [List.drop_drop]
  have split3 : splitAtBytes (s.drop 14) 3 =
      some ((s.drop 14).take 3, (s.drop 14).drop 3) :=
    splitAtBytes_ascii 3 (s.drop 14) (by simp [h18])
      (fun c hc => utf8Len_of_digit (h3d c hc))
  have hd17 : (s.drop 14).drop 3 = [s.getD 17 ' '] := by
    rw [List.drop_drop]
    exact drop_pred_eq_getD (by omega)
  have hchk : chkIdx s =
      some (chkIdxAux (((s.take 17).map charVal).zip WEIGHTS) 0) :=
    chkIdx_of_digits h17d
  refine ⟨_, hchk, chkIdxAux_lt _ (by omega), ?_⟩
  have hne : ¬ (s.length ≠ IDNUMBER_LENGTH) := by
    unfold IDNUMBER_LENGTH; omega
  by_cases hm : s.getD 17 ' ' ∈ CHECK_CODE
  · simp only [from_str, hne, if_false, DIV_CODE_LENGTH, BIRTHDAY_LENGTH,
      SEQ_LENGTH, split1, hdiv, split2, hd6, hbd, split3, hd17, hsq,
      List.head?_cons, hchk, hm, if_true, ite_true, ite_false]
  · simp only [from_str, hne, if_false, DIV_CODE_LENGTH, BIRTHDAY_LENGTH,
      SEQ_LENGTH, split1, hdiv, split2, hd6, hbd, split3, hd17, hsq,
      List.head?_cons, hchk, hm, if_true, ite_true, ite_false, not_false_iff]

end IdCard
namespace IdCard

theorem map_mul_zip : ∀ (l₁ l₂ : List Nat),
    (l₁.zip l₂).map (fun p => p.1 * p.2) = List.zipWith (fun d w => d * w) l₁ l₂ := by
  intro l₁
  induction l₁ with
  | nil => intro l₂; cases l₂ <;> rfl
  | cons a l ih =>
    intro l₂
    cases l₂ with
    | nil => rfl
    | cons b l₂ => simp [List.zip_cons_cons, ih]

/-- C2: For every sequence of 17 decimal digits, the checksum index computed by
the code's incremental fold — starting from 0 and at each position taking
`(acc + digit[i] * WEIGHTS[i]) mod 11` in 8-bit arithmetic — equals the spec's
reference `(Σ digit[i] * weight[i]) mod 11` with the spec's weight table, and
the expected checksum character is the element of the spec's 11-character
alphabet at that index. -/
theorem chk_fold_refines_spec (ds : List Nat) (_hlen : ds.length = 17)
    (hd : ∀ d ∈ ds, d ≤ 9) :
    chkIdxAux (ds.zip WEIGHTS) 0 = specIdx ds ∧
      CHECK_CODE.getD (chkIdxAux (ds.zip WEIGHTS) 0) ' ' =
        specAlphabet.getD (specIdx ds) ' ' := by
  have hW : WEIGHTS = specWeights := rfl
  have hb : ∀ p ∈ ds.zip WEIGHTS, p.1 * p.2 ≤ 245 := by
    intro p hp
    obtain ⟨h1m, h2m⟩ := List.of_mem_zip hp
    have h1 : p.1 ≤ 9 := hd _ h1m
    have h2 : p.2 ≤ 10 := by
      have hw : ∀ w ∈ WEIGHTS, w ≤ 10 := by decide
      exact hw _ h2m
    have := Nat.mul_le_mul h1 h2
    omega
  have key : chkIdxAux (ds.zip WEIGHTS) 0 = specIdx ds := by
    rw [chkIdxAux_eq_sum _ 0 hb (by omega), Nat.zero_add]
    unfold specIdx
    rw [← hW, map_mul_zip]
  exact ⟨key, by rw [key]; rfl⟩

/-- Witness for C2: the 17 digits of the valid identity number
`51010819720505213` give index 5 under both the fold and the spec formula. -/
theorem chk_fold_refines_spec_witness :
    ([5, 1, 0, 1, 0, 8, 1, 9, 7, 2, 0, 5, 0, 5, 2, 1, 3] : List Nat).length = 17 ∧
      chkIdxAux (([5, 1, 0, 1, 0, 8, 1, 9, 7, 2, 0, 5, 0, 5, 2, 1, 3] : List Nat).zip
        WEIGHTS) 0 = specIdx [5, 1, 0, 1, 0, 8, 1, 9, 7, 2, 0, 5, 0, 5, 2, 1, 3] :=
  ⟨by decide,
    (chk_fold_refines_spec [5, 1, 0, 1, 0, 8, 1, 9, 7, 2, 0, 5, 0, 5, 2, 1, 3]
      (by decide) (by decide)).1⟩

theorem from_str_ok_aux (now : Date) (s d : List Char) (b : Date) (q idx : Nat)
    (h18 : s.length = 18)
    (hdiv : Division.get (s.take 6) = some d)
    (hbd : parseDate now ((s.drop 6).take 8) = some b)
    (hsq : parseSeq ((s.drop 14).take 3) = some q)
    (hidx : chkIdx s = some idx)
    (hchk : s.getD 17 ' ' = CHECK_CODE.getD idx ' ') :
    from_str now s = .ok ⟨d, b, q⟩ := by
  obtain ⟨i, hi, hilt, heq⟩ := from_str_valid_reduction now s d b q h18 hdiv hbd hsq
  obtain rfl : i = idx := by
    rw [hi] at hidx
    exact Option.some_injective _ hidx
  rw [heq]
  have hmem : s.getD 17 ' ' ∈ CHECK_CODE := by
    rw [hchk]
    have hlen : CHECK_CODE.length = 11 := rfl
    have hlt : i < CHECK_CODE.length := by omega
    rw [List.getD_eq_getElem _ _ hlt]
    exact List.getElem_mem hlt
  rw [if_pos hmem, if_neg (fun hne => hne hchk)]

/-- C1: For every 18-character input whose division code resolves in the
registry, whose 8-character birth-date substring parses as a valid date, whose
3-character sequence substring parses as a valid ordinal, and whose 18th
character equals the checksum computed from the first 17 characters, `from_str`
returns `Ok`, with `div`, `birth` and `seq` equal to the resolved division,
the parsed date and the parsed sequence. -/
theorem from_str_ok_valid (now : Date) (s d : List Char) (b : Date) (q idx : Nat)
    (h18 : s.length = 18)
    (hdiv : Division.get (s.take 6) = some d)
    (hbd : parseDate now ((s.drop 6).take 8) = some b)
    (hsq : parseSeq ((s.drop 14).take 3) = some q)
    (hidx : chkIdx s = some idx)
    (hchk : s.getD 17 ' ' = CHECK_CODE.getD idx ' ') :
    from_str now s = .ok ⟨d, b, q⟩ :=
  from_str_ok_aux now s d b q idx h18 hdiv hbd hsq hidx hchk

/-- Witness for C1: the valid identity number `510108197205052137` parses to
the record with division `510108`, birth 1972-05-05 and sequence 213. -/
theorem from_str_ok_valid_witness :
    Division.get ((String.toList "510108197205052137").take 6) =
        some (String.toList "510108") ∧
      from_str now2026 (String.toList "510108197205052137") =
        .ok ⟨String.toList "510108", ⟨1972, 5, 5⟩, 213⟩ :=
  ⟨by decide,
    from_str_ok_valid now2026 (String.toList "510108197205052137")
      (String.toList "510108") ⟨1972, 5, 5⟩ 213 5 (by decide) (by decide)
      (by decide) (by decide) (by decide) (by decide)⟩

/-- C3: For every input whose codepoint count is not 18, `from_str` returns the
length-mismatch error carrying exactly the observed codepoint count, reaching
no other validation. -/
theorem from_str_length_mismatch (now : Date) (s : List Char)
    (h : s.length ≠ 18) :
    from_str now s = .err (.LengthNotMatch s.length) := by
  simp only [from_str, IDNUMBER_LENGTH]
  rw [if_pos h]

/-- Witness for C3: the 17-character string `51010819720505213` yields
`LengthNotMatch 17`. -/
theorem from_str_length_mismatch_witness :
    (String.toList "51010819720505213").length ≠ 18 ∧
      from_str now2026 (String.toList "51010819720505213") =
        .err (.LengthNotMatch (String.toList "51010819720505213").length) :=
  ⟨by decide, from_str_length_mismatch now2026 (String.toList "51010819720505213")
    (by decide)⟩

/-- C9: `from_str` is a pure function of the input string and the
validation-time date: two invocations on equal inputs return equal results
(the embedding is a total function, so no invocation mutates any state). -/
theorem from_str_deterministic (now₁ now₂ : Date) (s₁ s₂ : List Char)
    (hn : now₁ = now₂) (hs : s₁ = s₂) :
    from_str now₁ s₁ = from_str now₂ s₂ := by rw [hn, hs]

/-- Witness for C9: two invocations on the valid identity number agree. -/
theorem from_str_deterministic_witness :
    from_str now2026 (String.toList "510108197205052137") =
      from_str now2026 (String.toList "510108197205052137") :=
  from_str_deterministic now2026 now2026 (String.toList "510108197205052137")
    (String.toList "510108197205052137") rfl rfl

end IdCard
namespace IdCard

/-- C5: For every 18-character input that passes division, date and sequence
validation and whose 18th character is lowercase `x`, `from_str` returns
`InvalidCheckCode 'x'` — never `WrongCheckCode` and never success — because
membership in the 11-character alphabet is case-sensitive. -/
theorem from_str_lowercase_x (now : Date) (s d : List Char) (b : Date) (q : Nat)
    (h18 : s.length = 18)
    (hdiv : Division.get (s.take 6) = some d)
    (hbd : parseDate now ((s.drop 6).take 8) = some b)
    (hsq : parseSeq ((s.drop 14).take 3) = some q)
    (hx : s.getD 17 ' ' = 'x') :
    from_str now s = .err (.InvalidCheckCode 'x') := by
  obtain ⟨i, hi, hilt, heq⟩ := from_str_valid_reduction now s d b q h18 hdiv hbd hsq
  rw [heq, hx, if_neg (by decide : ¬ ('x' ∈ CHECK_CODE))]

/-- Witness for C5: `51010819720505217x`, whose first 17 digits compute
checksum index 2 (which maps to `X`), is rejected as `InvalidCheckCode 'x'`. -/
theorem from_str_lowercase_x_witness :
    chkIdx (String.toList "51010819720505217x") = some 2 ∧
      CHECK_CODE.getD 2 ' ' = 'X' ∧
      from_str now2026 (String.toList "51010819720505217x") =
        .err (.InvalidCheckCode 'x') :=
  ⟨by decide, by decide,
    from_str_lowercase_x now2026 (String.toList "51010819720505217x")
      (String.toList "510108") ⟨1972, 5, 5⟩ 217 (by decide) (by decide)
      (by decide) (by decide) (by decide)⟩

/-- C6 counterexample: the claim that every invalid 18-character input
reports exactly one error determined by the fixed validation order is false
as stated: `00000中197205052137` is an 18-codepoint input whose division code
cannot resolve, yet `from_str` reports no error at all — the byte-indexed
split panics inside the multi-byte character `中`. -/
theorem from_str_order_counterexample :
    (String.toList "00000中197205052137").length = 18 ∧
      Division.get ((String.toList "00000中197205052137").take 6) = none ∧
      from_str now2026 (String.toList "00000中197205052137") =
        .panic .splitBoundary := ⟨by decide, by decide, by decide⟩

/-- C6 (amended): for every 18-character input whose three byte-level splits
succeed (in particular every all-ASCII input), `from_str` reports exactly one
error determined by the fixed validation order division → birth date →
sequence → checksum-character membership → checksum arithmetic, an
earlier-listed failing check masking all later ones: each stage's error is
reported with no condition on any later stage, so in particular an input
whose division code is unknown and whose date substring is also invalid
yields `DivisionNotFound` (carrying the raw code), never `InvalidBirthday`. -/
theorem from_str_validation_order (now : Date)
    (s dc rest bd rest2 qs chks : List Char)
    (h18 : s.length = 18)
    (hsp1 : splitAtBytes s 6 = some (dc, rest))
    (hsp2 : splitAtBytes rest 8 = some (bd, rest2))
    (hsp3 : splitAtBytes rest2 3 = some (qs, chks)) :
    (Division.get dc = none → from_str now s = .err (.DivisionNotFound dc)) ∧
      (∀ d, Division.get dc = some d → parseDate now bd = none →
        from_str now s = .err (.InvalidBirthday bd)) ∧
      (∀ d b, Division.get dc = some d → parseDate now bd = some b →
        parseSeq qs = none → from_str now s = .err (.InvalidSeq qs)) ∧
      (∀ d b q chr, Division.get dc = some d → parseDate now bd = some b →
        parseSeq qs = some q → chks.head? = some chr → chr ∉ CHECK_CODE →
        from_str now s = .err (.InvalidCheckCode chr)) ∧
      (∀ d b q chr idx, Division.get dc = some d → parseDate now bd = some b →
        parseSeq qs = some q → chks.head? = some chr → chr ∈ CHECK_CODE →
        chkIdx s = some idx → chr ≠ CHECK_CODE.getD idx ' ' →
        from_str now s = .err (.WrongCheckCode chr)) := by
  have hne : ¬ (s.length ≠ IDNUMBER_LENGTH) := by
    unfold IDNUMBER_LENGTH; omega
  refine ⟨?_, ?_, ?_, ?_, ?_⟩
  · intro hdc
    simp only [from_str, hne, if_false, DIV_CODE_LENGTH, hsp1, hdc, ite_false]
  · intro d hd hbdn
    simp only [from_str, hne, if_false, DIV_CODE_LENGTH, BIRTHDAY_LENGTH,
      hsp1, hd, hsp2, hbdn, ite_false]
  · intro d b hd hbd hqn
    simp only [from_str, hne, if_false, DIV_CODE_LENGTH, BIRTHDAY_LENGTH,
      SEQ_LENGTH, hsp1, hd, hsp2, hbd, hsp3, hqn, ite_false]
  · intro d b q chr hd hbd hq hhd hmem
    simp only [from_str, hne, if_false, DIV_CODE_LENGTH, BIRTHDAY_LENGTH,
      SEQ_LENGTH, hsp1, hd, hsp2, hbd, hsp3, hq, hhd, ite_false]
    rw [if_neg hmem, if_pos hmem]
  · intro d b q chr idx hd hbd hq hhd hmem hidx hne2
    simp only [from_str, hne, if_false, DIV_CODE_LENGTH, BIRTHDAY_LENGTH,
      SEQ_LENGTH, hsp1, hd, hsp2, hbd, hsp3, hq, hhd, hidx, ite_false]
    rw [if_pos hmem, if_pos hne2]

/-- Witness for the amended C6: `000000187205052137` splits cleanly, has an
unknown division code and an invalid (pre-1900) birth-date substring, and
yields `DivisionNotFound "000000"`, not `InvalidBirthday`. -/
theorem from_str_validation_order_witness :
    Division.get (String.toList "000000") = none ∧
      parseDate now2026 (String.toList "18720505") = none ∧
      from_str now2026 (String.toList "000000187205052137") =
        .err (.DivisionNotFound (String.toList "000000")) :=
  ⟨by decide, by decide,
    (from_str_validation_order now2026 (String.toList "000000187205052137")
      (String.toList "000000") (String.toList "187205052137")
      (String.toList "18720505") (String.toList "2137") (String.toList "213")
      (String.toList "7") (by decide) (by decide) (by decide) (by decide)).1
      (by decide)⟩

/-- C7: Round-trip — for every division code found in the registry, every date
accepted by the date validator and every sequence accepted by the sequence
validator, concatenating code, date digits, sequence digits and the checksum
character computed by the checksum engine over those 17 digits, then parsing,
succeeds and yields the record built directly from those components. -/
theorem from_str_round_trip (now : Date) (code ds qs dvar : List Char)
    (b : Date) (q idx : Nat)
    (hdiv : Division.get code = some dvar)
    (hbd : parseDate now ds = some b)
    (hsq : parseSeq qs = some q)
    (hidx : chkIdx (code ++ ds ++ qs) = some idx) :
    from_str now (code ++ ds ++ qs ++ [CHECK_CODE.getD idx ' ']) =
      .ok ⟨dvar, b, q⟩ := by
  rw [List.append_assoc (code ++ ds) qs [CHECK_CODE.getD idx ' '],
    List.append_assoc code ds (qs ++ [CHECK_CODE.getD idx ' '])]
  rw [List.append_assoc code ds qs] at hidx
  have hc6 : code.length = 6 := (registry_entry _ (Division.get_eq_some hdiv).2).1
  have hd8 : ds.length = 8 := (parseDate_some hbd).1
  have hq3 : qs.length = 3 := (parseSeq_some hsq).1
  have h18 : (code ++ (ds ++ (qs ++ [CHECK_CODE.getD idx ' ']))).length = 18 := by
    simp [hc6, hd8, hq3]
  have h14 : (code ++ (ds ++ (qs ++ [CHECK_CODE.getD idx ' ']))).drop 14 =
      qs ++ [CHECK_CODE.getD idx ' '] := by
    have h2 : ((code ++ (ds ++ (qs ++ [CHECK_CODE.getD idx ' ']))).drop 6).drop 8 =
        qs ++ [CHECK_CODE.getD idx ' '] := by
      rw [List.drop_left' hc6, List.drop_left' hd8]
    rw [List.drop_drop] at h2
    exact h2
  have h17 : (code ++ (ds ++ (qs ++ [CHECK_CODE.getD idx ' ']))).take 17 =
      code ++ (ds ++ qs) := by
    rw [take17_decomp, List.take_left' hc6, List.drop_left' hc6,
      List.take_left' hd8, h14, List.take_left' hq3]
  have h17d : (code ++ (ds ++ (qs ++ [CHECK_CODE.getD idx ' ']))).drop 17 =
      [CHECK_CODE.getD idx ' '] := by
    have h2 : ((code ++ (ds ++ (qs ++ [CHECK_CODE.getD idx ' ']))).drop 14).drop 3 =
        [CHECK_CODE.getD idx ' '] := by
      rw [h14]
      exact List.drop_left' hq3
    rw [List.drop_drop] at h2
    exact h2
  have hlast : (code ++ (ds ++ (qs ++ [CHECK_CODE.getD idx ' ']))).getD 17 ' ' =
      CHECK_CODE.getD idx ' ' := by
    have h2 := drop_pred_eq_getD
      (l := code ++ (ds ++ (qs ++ [CHECK_CODE.getD idx ' ']))) (n := 17) (by omega)
    rw [h17d] at h2
    injection h2 with h1 _
    exact h1.symm
  refine from_str_ok_aux now _ dvar b q idx h18 ?_ ?_ ?_ ?_ hlast
  · rw [List.take_left' hc6]
    exact hdiv
  · rw [List.drop_left' hc6, List.take_left' hd8]
    exact hbd
  · rw [h14, List.take_left' hq3]
    exact hsq
  · unfold chkIdx at hidx ⊢
    rw [show IDNUMBER_LENGTH - 1 = 17 from rfl] at hidx ⊢
    rw [h17]
    rw [List.take_of_length_le (by simp [hc6, hd8, hq3])] at hidx
    exact hidx

/-- Witness for C7: rebuilding `510108197205052137` from its components and
re-parsing yields the same record. -/
theorem from_str_round_trip_witness :
    from_str now2026 (String.toList "510108" ++ String.toList "19720505" ++
        String.toList "213" ++ [CHECK_CODE.getD 5 ' ']) =
      .ok ⟨String.toList "510108", ⟨1972, 5, 5⟩, 213⟩ :=
  from_str_round_trip now2026 (String.toList "510108") (String.toList "19720505")
    (String.toList "213") (String.toList "510108") ⟨1972, 5, 5⟩ 213 5 (by decide)
    (by decide) (by decide) (by decide)

end IdCard
namespace IdCard

theorem all_digits_mem {cs : List Char} (h : cs.all isDigitC = true) :
    ∀ c ∈ cs, isDigitC c = true := by
  simpa [List.all_eq_true] using h

/-- C8: For every input that reaches the checksum-arithmetic step, the first 17
characters are ASCII decimal digits — the prior field validations guarantee it
— so the digit conversion `chr.to_digit(10).unwrap()` never panics:
`from_str` never produces the digit-unwrap panic outcome. -/
theorem from_str_no_digit_panic (now : Date) (s : List Char) :
    from_str now s ≠ .panic .digitUnwrap := by
  intro h
  simp only [from_str, IDNUMBER_LENGTH, DIV_CODE_LENGTH, BIRTHDAY_LENGTH,
    SEQ_LENGTH] at h
  split at h
  · simp at h
  · split at h
    · simp at h
    · rename_i dc rest hsp1
      split at h
      · simp at h
      · rename_i d hdv
        split at h
        · simp at h
        · rename_i bd rest2 hsp2
          split at h
          · simp at h
          · rename_i birth hbd
            split at h
            · simp at h
            · rename_i sq3 chks hsp3
              split at h
              · simp at h
              · rename_i q hsq
                split at h
                · simp at h
                · rename_i chr hhd
                  split at h
                  · split at h
                    · rename_i hchk
                      have hdc := registry_entry _ (Division.get_eq_some hdv).2
                      have hbd8 := parseDate_some hbd
                      have hsq3 := parseSeq_some hsq
                      have hsde : s = dc ++ (bd ++ (sq3 ++ chks)) := by
                        rw [(splitAtBytes_eq_some s 6 dc rest hsp1).1,
                          (splitAtBytes_eq_some rest 8 bd rest2 hsp2).1,
                          (splitAtBytes_eq_some rest2 3 sq3 chks hsp3).1]
                      have ht6 : s.take 6 = dc := by
                        rw [hsde]; exact List.take_left' hdc.1
                      have hd6 : s.drop 6 = bd ++ (sq3 ++ chks) := by
                        rw [hsde]; exact List.drop_left' hdc.1
                      have ht8 : (s.drop 6).take 8 = bd := by
                        rw [hd6]; exact List.take_left' hbd8.1
                      have hd14 : s.drop 14 = sq3 ++ chks := by
                        have h2 : (s.drop 6).drop 8 = sq3 ++ chks := by
                          rw [hd6]; exact List.drop_left' hbd8.1
                        rw [List.drop_drop] at h2
                        exact h2
                      have ht3 : (s.drop 14).take 3 = sq3 := by
                        rw [hd14]; exact List.take_left' hsq3.1
                      have hdig : ∀ c ∈ s.take 17, isDigitC c = true := by
                        intro c hc
                        rw [take17_decomp, ht6, ht8, ht3, List.mem_append,
                          List.mem_append] at hc
                        rcases hc with hc | hc | hc
                        · exact all_digits_mem hdc.2 c hc
                        · exact all_digits_mem hbd8.2 c hc
                        · exact all_digits_mem hsq3.2 c hc
                      rw [chkIdx_of_digits hdig] at hchk
                      simp at hchk
                    · split at h <;> simp at h
                  · simp at h

/-- C10: the two `unreachable!()` arms of the checksum-character match are dead
code — whenever that match is reached the final slice is nonempty, so
`chars().next()` is `Some`, and the two guarded arms are exhaustive:
`from_str` never produces the unreachable-arm panic outcome. -/
theorem from_str_no_unreachable (now : Date) (s : List Char) :
    from_str now s ≠ .panic .unreachableChk := by
  intro h
  simp only [from_str, IDNUMBER_LENGTH, DIV_CODE_LENGTH, BIRTHDAY_LENGTH,
    SEQ_LENGTH] at h
  split at h
  · simp at h
  · rename_i hlen
    split at h
    · simp at h
    · rename_i dc rest hsp1
      split at h
      · simp at h
      · rename_i d hdv
        split at h
        · simp at h
        · rename_i bd rest2 hsp2
          split at h
          · simp at h
          · rename_i birth hbd
            split at h
            · simp at h
            · rename_i sq3 chks hsp3
              split at h
              · simp at h
              · rename_i q hsq
                split at h
                · rename_i hhd
                  have hlen18 : s.length = 18 := not_ne_iff.mp hlen
                  have hchks : chks = [] := List.head?_eq_none_iff.mp hhd
                  have h1 := splitAtBytes_eq_some s 6 dc rest hsp1
                  have h2 := splitAtBytes_eq_some rest 8 bd rest2 hsp2
                  have h3 := splitAtBytes_eq_some rest2 3 sq3 chks hsp3
                  have hby : bytesLen s = 6 + (8 + (3 + bytesLen chks)) := by
                    rw [h1.1, bytesLen_append, h1.2, h2.1, bytesLen_append,
                      h2.2, h3.1, bytesLen_append, h3.2]
                  have hge : 18 ≤ bytesLen s := by
                    have := length_le_bytesLen s
                    omega
                  rw [hchks] at hby
                  rw [bytesLen_nil] at hby
                  omega
                · rename_i chr hhd
                  split at h
                  · split at h
                    · simp at h
                    · split at h <;> simp at h
                  · simp at h

end IdCard
namespace IdCard

/-- C4: the tokenization step is not total on 18-codepoint inputs, refuting
the claim that it never panics and splits at codepoint offsets: on
`aaaaa中197205052137` — 18 codepoints, with byte offset 6 falling inside the
3-byte character `中` — the byte-indexed `split_at` of `from_str` panics. -/
theorem from_str_panics_on_multibyte :
    (String.toList "aaaaa中197205052137").length = 18 ∧
      from_str now2026 (String.toList "aaaaa中197205052137") =
        .panic .splitBoundary := ⟨by decide, by decide⟩

end IdCard
